import Mathlib

/-
Verification development for the RommHui/websocket Go library.

Shallow embedding of the frame codec (src/frame.go), the masking filter and
helpers (src/common.go), the message fragmentation and control dispatch
(src/message.go), and the connection lifecycle (websocket.go, provided as
src/unnamed/part_000).  Go byte streams are modelled as List Nat (each
element a byte value), machine integers as Nat with explicit truncation
where the Go code truncates, and fallible operations as Except / Option.
-/

set_option maxRecDepth 8000

namespace WS

/-! ## Opcodes (src/unnamed/part_000, OpCode constants) -/

def ContinuationFrame : Nat := 0
def TextFrame : Nat := 1
def BinaryFrame : Nat := 2
def ConnectionClose : Nat := 8
def Ping : Nat := 9
def Pong : Nat := 10

/-! ## Connection status constants (src/unnamed/part_000: OPEN, CLOSING, CLOSED) -/

def OPEN : Nat := 1
def CLOSING : Nat := 2
def CLOSED : Nat := 3

/-! ## Errors

The byte sources of this development are finite lists; the only read error a
finite source produces is its end-of-stream error, Go io.EOF.  When a header
read propagates it out of Frame.Decode, the spec calls the failure ShortRead.
-/

inductive StreamErr where
  | eof
  deriving DecidableEq

/-! ## Masking filter (src/common.go, maskReader)

maskReader keeps a cumulative byte index i (the Go code stores it already
reduced, advancing with i = (i+1) & 0b11) and XORs the j-th byte of a read
with maskKey[(i+j) mod 4].  maskBytes is the transform it applies to one
read of bytes when the cumulative index before the read is i; maskChunks is
the whole filter applied to a sequence of reads.
-/

def maskBytes (key : List Nat) (i : Nat) : List Nat → List Nat
  | [] => []
  | b :: bs => (b ^^^ key.getD (i % 4) 0) :: maskBytes key (i + 1) bs

def maskChunks (key : List Nat) (i : Nat) : List (List Nat) → List (List Nat)
  | [] => []
  | c :: cs => maskBytes key i c :: maskChunks key (i + c.length) cs

theorem maskBytes_length (key : List Nat) (i : Nat) (p : List Nat) :
    (maskBytes key i p).length = p.length := by
  induction p generalizing i with
  | nil => rfl
  | cons b bs ih => simp [maskBytes, ih]

theorem maskBytes_maskBytes (key : List Nat) (i : Nat) (p : List Nat) :
    maskBytes key i (maskBytes key i p) = p := by
  induction p generalizing i with
  | nil => rfl
  | cons b bs ih =>
    simp only [maskBytes, ih]
    rw [Nat.xor_assoc, Nat.xor_self, Nat.xor_zero]

theorem maskBytes_append (key : List Nat) (i : Nat) (p q : List Nat) :
    maskBytes key i (p ++ q) = maskBytes key i p ++ maskBytes key (i + p.length) q := by
  induction p generalizing i with
  | nil => simp [maskBytes]
  | cons b bs ih =>
    simp [maskBytes, ih, Nat.add_assoc, Nat.add_comm 1 bs.length]

theorem maskChunks_join (key : List Nat) (i : Nat) (cs : List (List Nat)) :
    (maskChunks key i cs).flatten = maskBytes key i cs.flatten := by
  induction cs generalizing i with
  | nil => rfl
  | cons c cs ih => simp [maskChunks, ih, maskBytes_append]

/-! ## Big-endian length packing

Modelled from the spec: bigEndianUint64Pack and bigEndianUint64Unpack are
called from src/frame.go but their file is not under src/.  Per spec section
4.1 the extended payload length is written big-endian into the destination
slice (2 bytes for the 16-bit form, 8 bytes for the 64-bit form, zero-padded
on the unused high bytes) and read back as a big-endian unsigned integer of
the width that was read.  bePack w v produces the w big-endian bytes of v
(each byte truncated as Go byte() does); beUnpack folds bytes back into the
integer.
-/

def bePack : Nat → Nat → List Nat
  | 0, _ => []
  | w + 1, v => (v / 256 ^ w) % 256 :: bePack w v

def beUnpack (p : List Nat) : Nat :=
  p.foldl (fun acc b => acc * 256 + b) 0

theorem bePack_length (w v : Nat) : (bePack w v).length = w := by
  induction w generalizing v with
  | zero => rfl
  | succ w ih => simp [bePack, ih]

theorem foldl_bePack (w v acc : Nat) :
    List.foldl (fun a b => a * 256 + b) acc (bePack w v) = acc * 256 ^ w + v % 256 ^ w := by
  induction w generalizing acc with
  | zero => simp [bePack, Nat.mod_one]
  | succ w ih =>
    simp only [bePack, List.foldl_cons, ih]
    have hpow : (256 : Nat) ^ (w + 1) = 256 ^ w * 256 := by ring
    have hmod : v % 256 ^ (w + 1) = v % 256 ^ w + 256 ^ w * (v / 256 ^ w % 256) := by
      rw [hpow, Nat.mod_mul]
    rw [hmod]
    ring

theorem beUnpack_bePack (w v : Nat) (h : v < 256 ^ w) :
    beUnpack (bePack w v) = v := by
  unfold beUnpack
  rw [foldl_bePack, Nat.zero_mul, Nat.zero_add, Nat.mod_eq_of_lt h]

/-! ## Small bitwise facts used to read header bytes back -/

theorem bit_facts : ∀ x : Nat, x < 128 →
    (128 ||| x) &&& 127 = x ∧ x &&& 127 = x ∧ (128 ||| x) &&& 128 = 128 ∧
    x &&& 128 = 0 ∧ (128 ||| x) &&& 15 = x % 16 ∧ x &&& 15 = x % 16 := by
  decide

/-! ## mustRead (src/common.go)

mustRead loops reading until the buffer p is filled, returning early with
the read error; with len(p) = 0 it returns immediately.  Over a finite
byte-list source (each Read hands over all bytes still available, and a
read from the exhausted source returns io.EOF) its net effect is: the next
n bytes and the remaining stream on success, the end-of-stream error when
fewer than n bytes remain.
-/

def mustRead (n : Nat) (s : List Nat) : Except StreamErr (List Nat × List Nat) :=
  if n ≤ s.length then .ok (s.take n, s.drop n) else .error .eof

/-! ## Frame encoding (src/frame.go, Frame.Encode)

The frame holds fin, mask, a 4-bit opcode and a payload LimitedReader whose
count N is the payload length; here the payload is the byte list P with
N = P.length.  Encode builds the header: byte 0 is the fin bit OR-ed with
the opcode; byte 1 is the mask bit OR-ed with the length bits, where
N < 125 uses the 7-bit form, N < 2^16 (with 125 ≤ N) the 16-bit extended
form and otherwise the 64-bit extended form; then the extended length
bytes, then (when mask is set) the 4 masking-key bytes produced by the
PRNG — a parameter here — and finally the payload, run through maskReader
when mask is set.  encodeFrame is the byte stream of the returned
io.MultiReader fully drained (newBytesBuffer, absent from src/, is
modelled from the spec as a plain reader over the header bytes).
-/

def encodeFrame (fin mask : Bool) (op : Nat) (maskKey : List Nat) (P : List Nat) : List Nat :=
  let N := P.length
  let b0 := (if fin then 128 else 0) ||| op
  let lenBits : Nat := if N < 125 then N else if N < 2 ^ 16 then 126 else 127
  let extBytes : List Nat := if N < 125 then [] else if N < 2 ^ 16 then bePack 2 N else bePack 8 N
  let b1 := (if mask then 128 else 0) ||| lenBits
  [b0, b1] ++ extBytes ++ (if mask then maskKey else []) ++
    (if mask then maskBytes maskKey 0 P else P)

/-! ## Frame decoding (src/frame.go, Frame.Decode)

Decode reads 2 header bytes, splits out fin (bit 7 of byte 0), the opcode
(low 4 bits of byte 0), mask (bit 7 of byte 1) and the 7-bit length; a
7-bit length of 126 or 127 makes it read 2 or 8 extended length bytes and
replace the length with their big-endian value; when mask is set it reads
the 4-byte masking key and wraps the remaining stream in maskReader.  The
decoded frame keeps the declared count n and the remaining stream from
which its LimitedReader payload will draw.
-/

structure DecFrame where
  fin : Bool
  opCode : Nat
  mask : Bool
  n : Nat
  maskKey : List Nat
  rest : List Nat
  deriving DecidableEq

/-- The extended-payload-length reads of Decode: a 7-bit length n0 of 126
reads 2 more bytes, 127 reads 8; anything else reads nothing.  Returns
(extendPayloadLength, the bytes read, the remaining stream). -/
def decodeExtLen (n0 : Nat) (s1 : List Nat) : Except StreamErr (Nat × List Nat × List Nat) :=
  if n0 = 126 then
    match mustRead 2 s1 with
    | .error e => .error e
    | .ok (ext, s2) => .ok (2, ext, s2)
  else if n0 = 127 then
    match mustRead 8 s1 with
    | .error e => .error e
    | .ok (ext, s2) => .ok (8, ext, s2)
  else .ok (0, [], s1)

/-- Decode after the two fixed header bytes b0 and b1 have been read:
field extraction, the extended length, and the masking key. -/
def decodeAfterHeader (b0 b1 : Nat) (s1 : List Nat) : Except StreamErr DecFrame :=
  let ffin : Bool := decide (0 < b0 &&& 128)
  let fop := b0 &&& 15
  let fmask : Bool := decide (0 < b1 &&& 128)
  let n0 := b1 &&& 127
  match decodeExtLen n0 s1 with
  | .error e => .error e
  | .ok (extLen, ext, s2) =>
    let n := if 0 < extLen then beUnpack ext else n0
    if fmask then
      match mustRead 4 s2 with
      | .error e => .error e
      | .ok (key, s3) => .ok ⟨ffin, fop, fmask, n, key, s3⟩
    else .ok ⟨ffin, fop, fmask, n, [], s2⟩

def decodeFrame (s : List Nat) : Except StreamErr DecFrame :=
  match mustRead 2 s with
  | .error e => .error e
  | .ok (hd, s1) => decodeAfterHeader (hd.getD 0 0) (hd.getD 1 0) s1

/-- Draining the decoded frame payload: the LimitedReader hands out the
first n bytes of the remaining stream, passed through maskReader (from
cumulative index 0) when the mask flag was set. -/
def readPayload (d : DecFrame) : List Nat :=
  if d.mask then maskBytes d.maskKey 0 (d.rest.take d.n) else d.rest.take d.n

/-- Number of bytes of a complete frame header, as a function of the second
header byte: 2 fixed bytes, the extended length bytes its low 7 bits call
for, and 4 masking-key bytes when its mask bit is set. -/
def headerLenOf (b1 : Nat) : Nat :=
  2 + (if b1 &&& 127 = 126 then 2 else if b1 &&& 127 = 127 then 8 else 0) +
    (if 0 < b1 &&& 128 then 4 else 0)

/-! ## Reading header fields back out of encoded bytes -/

theorem bitA (x : Nat) (h : x < 128) : (128 ||| x) &&& 127 = x := (bit_facts x h).1

theorem bitB (x : Nat) (h : x < 128) : x &&& 127 = x := (bit_facts x h).2.1

theorem bitC (x : Nat) (h : x < 128) : (128 ||| x) &&& 128 = 128 := (bit_facts x h).2.2.1

theorem bitD (x : Nat) (h : x < 128) : x &&& 128 = 0 := (bit_facts x h).2.2.2.1

theorem bitE (x : Nat) (h : x < 16) : (128 ||| x) &&& 15 = x := by
  have := (bit_facts x (by omega)).2.2.2.2.1
  rwa [Nat.mod_eq_of_lt h] at this

theorem bitF (x : Nat) (h : x < 16) : x &&& 15 = x := by
  have := (bit_facts x (by omega)).2.2.2.2.2
  rwa [Nat.mod_eq_of_lt h] at this

theorem mustRead_exact (n : Nat) (p t : List Nat) (h : p.length = n) :
    mustRead n (p ++ t) = .ok (p, t) := by
  subst h
  simp [mustRead, List.take_left, List.drop_left]

theorem mustRead_cons2 (a b : Nat) (t : List Nat) :
    mustRead 2 (a :: b :: t) = .ok ([a, b], t) :=
  mustRead_exact 2 [a, b] t rfl

theorem mustRead_short (n : Nat) (s : List Nat) (h : s.length < n) :
    mustRead n s = .error .eof := by
  rw [mustRead, if_neg (by omega)]

theorem decodeFrame_cons2 (b0 b1 : Nat) (t : List Nat) :
    decodeFrame (b0 :: b1 :: t) = decodeAfterHeader b0 b1 t := by
  rw [decodeFrame, mustRead_cons2]
  rfl

theorem decodeFrame_short (s : List Nat) (h : s.length < 2) :
    decodeFrame s = .error .eof := by
  rw [decodeFrame, mustRead_short 2 s h]

theorem decodeExtLen_none (L : Nat) (s : List Nat) (h126 : L ≠ 126) (h127 : L ≠ 127) :
    decodeExtLen L s = .ok (0, [], s) := by
  rw [decodeExtLen, if_neg h126, if_neg h127]

theorem decodeExtLen_16 (ext t : List Nat) (h : ext.length = 2) :
    decodeExtLen 126 (ext ++ t) = .ok (2, ext, t) := by
  rw [decodeExtLen, if_pos rfl, mustRead_exact 2 ext t h]

theorem decodeExtLen_64 (ext t : List Nat) (h : ext.length = 8) :
    decodeExtLen 127 (ext ++ t) = .ok (8, ext, t) := by
  rw [decodeExtLen, if_neg (by omega), if_pos rfl, mustRead_exact 8 ext t h]

theorem decide_0_lt_128 : decide (0 < (128 : Nat)) = true := rfl

theorem decide_0_lt_0 : decide (0 < (0 : Nat)) = false := rfl

/-- fin bit of the encoded byte 0 decodes back to the fin flag. -/
theorem finBit (fin : Bool) (op : Nat) (hop : op < 16) :
    decide (0 < ((if fin then 128 else 0) ||| op) &&& 128) = fin := by
  cases fin
  · simp [Nat.zero_or, bitD op (by omega)]
  · simp [bitC op (by omega)]

/-- opcode bits of the encoded byte 0 decode back to the opcode. -/
theorem opBits (fin : Bool) (op : Nat) (hop : op < 16) :
    ((if fin then 128 else 0) ||| op) &&& 15 = op := by
  cases fin
  · simp [Nat.zero_or, bitF op hop]
  · simp [bitE op hop]

/-- decodeAfterHeader on a masked wire: byte 1 is 128 OR-ed with the 7-bit
length bits L, then the extended length bytes, the 4-byte key, the rest. -/
theorem decodeAfterHeader_masked (fin : Bool) (op L extLen : Nat) (ext key rest : List Nat)
    (hop : op < 16) (hL : L < 128) (hkey : key.length = 4)
    (hext : decodeExtLen L (ext ++ (key ++ rest)) = .ok (extLen, ext, key ++ rest)) :
    decodeAfterHeader ((if fin then 128 else 0) ||| op) (128 ||| L) (ext ++ (key ++ rest)) =
      .ok ⟨fin, op, true, if 0 < extLen then beUnpack ext else L, key, rest⟩ := by
  unfold decodeAfterHeader
  simp only [bitA L hL, bitC L hL, hext, finBit fin op hop, opBits fin op hop,
    mustRead_exact 4 key rest hkey, decide_0_lt_128, if_true]

/-- decodeAfterHeader on an unmasked wire: byte 1 is the 7-bit length bits
L, then the extended length bytes and the rest. -/
theorem decodeAfterHeader_unmasked (fin : Bool) (op L extLen : Nat) (ext rest : List Nat)
    (hop : op < 16) (hL : L < 128)
    (hext : decodeExtLen L (ext ++ rest) = .ok (extLen, ext, rest)) :
    decodeAfterHeader ((if fin then 128 else 0) ||| op) L (ext ++ rest) =
      .ok ⟨fin, op, false, if 0 < extLen then beUnpack ext else L, [], rest⟩ := by
  unfold decodeAfterHeader
  simp only [bitB L hL, bitD L hL, hext, finBit fin op hop, opBits fin op hop,
    decide_0_lt_0, Bool.false_eq_true, if_false]

/-- C1: for every frame with any fin flag, any mask flag, any 4-bit opcode
(reserved values included) and payload bytes P declared at length N = |P|
(an int64 in the Go code, hence N < 2^63), decoding the byte stream that
encoding produced yields a frame with the same fin, opcode and mask flag, a
declared payload length equal to |P|, and a payload reader producing
exactly P. -/
theorem frame_encode_decode_roundtrip (fin mask : Bool) (op : Nat) (key P : List Nat)
    (hop : op < 16) (hkey : key.length = 4) (hP : P.length < 2 ^ 63) :
    decodeFrame (encodeFrame fin mask op key P) =
      .ok ⟨fin, op, mask, P.length, if mask then key else [],
        if mask then maskBytes key 0 P else P⟩ ∧
    readPayload ⟨fin, op, mask, P.length, if mask then key else [],
        if mask then maskBytes key 0 P else P⟩ = P := by
  constructor
  · rcases Nat.lt_or_ge P.length 125 with h125 | h125
    · have hL : P.length < 128 := by omega
      have hne6 : P.length ≠ 126 := by omega
      have hne7 : P.length ≠ 127 := by omega
      cases mask
      · have hwire : encodeFrame fin false op key P =
            ((if fin then 128 else 0) ||| op) :: P.length :: ([] ++ P) := by
          simp [encodeFrame, h125]
        rw [hwire, decodeFrame_cons2,
          decodeAfterHeader_unmasked fin op P.length 0 [] P hop hL
            (decodeExtLen_none P.length ([] ++ P) hne6 hne7)]
        simp
      · have hwire : encodeFrame fin true op key P =
            ((if fin then 128 else 0) ||| op) :: (128 ||| P.length) ::
              ([] ++ (key ++ maskBytes key 0 P)) := by
          simp [encodeFrame, h125]
        rw [hwire, decodeFrame_cons2,
          decodeAfterHeader_masked fin op P.length 0 [] key (maskBytes key 0 P) hop hL hkey
            (decodeExtLen_none P.length ([] ++ (key ++ maskBytes key 0 P)) hne6 hne7)]
        simp
    · have hnl : ¬ P.length < 125 := by omega
      rcases Nat.lt_or_ge P.length (2 ^ 16) with h16 | h16
      · have hpow : (256 : Nat) ^ 2 = 65536 := by norm_num
        have h65536 : P.length < 65536 := by omega
        have hbound : P.length < 256 ^ 2 := by rw [hpow]; omega
        have hun : beUnpack (bePack 2 P.length) = P.length :=
          beUnpack_bePack 2 P.length hbound
        cases mask
        · have hwire : encodeFrame fin false op key P =
              ((if fin then 128 else 0) ||| op) :: (126 : Nat) ::
                (bePack 2 P.length ++ P) := by
            simp [encodeFrame, hnl, h16, h65536]
          rw [hwire, decodeFrame_cons2,
            decodeAfterHeader_unmasked fin op 126 2 (bePack 2 P.length) P hop (by omega)
              (decodeExtLen_16 (bePack 2 P.length) P (bePack_length 2 P.length))]
          simp [hun]
        · have hwire : encodeFrame fin true op key P =
              ((if fin then 128 else 0) ||| op) :: (128 ||| 126) ::
                (bePack 2 P.length ++ (key ++ maskBytes key 0 P)) := by
            simp [encodeFrame, hnl, h16, h65536]
          rw [hwire, decodeFrame_cons2,
            decodeAfterHeader_masked fin op 126 2 (bePack 2 P.length) key
              (maskBytes key 0 P) hop (by omega) hkey
              (decodeExtLen_16 (bePack 2 P.length) (key ++ maskBytes key 0 P)
                (bePack_length 2 P.length))]
          simp [hun]
      · have hn16 : ¬ P.length < 2 ^ 16 := by omega
        have hn65536 : ¬ P.length < 65536 := by omega
        have hpow : (256 : Nat) ^ 8 = 18446744073709551616 := by norm_num
        have hbound : P.length < 256 ^ 8 := by rw [hpow]; omega
        have hun : beUnpack (bePack 8 P.length) = P.length :=
          beUnpack_bePack 8 P.length hbound
        cases mask
        · have hwire : encodeFrame fin false op key P =
              ((if fin then 128 else 0) ||| op) :: (127 : Nat) ::
                (bePack 8 P.length ++ P) := by
            simp [encodeFrame, hnl, hn16, hn65536]
          rw [hwire, decodeFrame_cons2,
            decodeAfterHeader_unmasked fin op 127 8 (bePack 8 P.length) P hop (by omega)
              (decodeExtLen_64 (bePack 8 P.length) P (bePack_length 8 P.length))]
          simp [hun]
        · have hwire : encodeFrame fin true op key P =
              ((if fin then 128 else 0) ||| op) :: (128 ||| 127) ::
                (bePack 8 P.length ++ (key ++ maskBytes key 0 P)) := by
            simp [encodeFrame, hnl, hn16, hn65536]
          rw [hwire, decodeFrame_cons2,
            decodeAfterHeader_masked fin op 127 8 (bePack 8 P.length) key
              (maskBytes key 0 P) hop (by omega) hkey
              (decodeExtLen_64 (bePack 8 P.length) (key ++ maskBytes key 0 P)
                (bePack_length 8 P.length))]
          simp [hun]
  · cases mask
    · simp [readPayload]
    · simp only [readPayload, if_pos]
      have hlen : (maskBytes key 0 P).take P.length = maskBytes key 0 P := by
        conv_lhs => rw [← maskBytes_length key 0 P]
        exact List.take_length _
      simp [hlen, maskBytes_maskBytes]

/-- C1 witness: the round trip at a concrete masked frame. -/
theorem frame_encode_decode_roundtrip_witness :
    decodeFrame (encodeFrame true true 9 [1, 2, 3, 4] [104, 105, 106]) =
      .ok ⟨true, 9, true, 3, [1, 2, 3, 4], maskBytes [1, 2, 3, 4] 0 [104, 105, 106]⟩ ∧
    readPayload ⟨true, 9, true, 3, [1, 2, 3, 4], maskBytes [1, 2, 3, 4] 0 [104, 105, 106]⟩ =
      [104, 105, 106] := by
  have h := frame_encode_decode_roundtrip true true 9 [1, 2, 3, 4] [104, 105, 106]
    (by decide) (by decide) (by norm_num)
  simpa using h

/-- C5 counterexample: at declared length N = 125 the encoder does not use
the 7-bit length form: the second header byte is 126 (the 16-bit extended
marker, followed by the 2 extended length bytes), not 125. -/
theorem encode_length_form_125 :
    (encodeFrame false false TextFrame [] (List.replicate 125 0)).getD 1 0 = 126 ∧
    (encodeFrame false false TextFrame [] (List.replicate 125 0)).length = 129 ∧
    ¬ (encodeFrame false false TextFrame [] (List.replicate 125 0)).getD 1 0 &&& 127 = 125 := by
  have h1 : ¬ (125 : Nat) < 125 := by norm_num
  have h2 : (125 : Nat) < 2 ^ 16 := by norm_num
  have hb : (encodeFrame false false TextFrame [] (List.replicate 125 0)).getD 1 0 = 126 := by
    unfold encodeFrame
    simp only [List.length_replicate, h1, h2, if_false, if_true, Bool.false_eq_true,
      Nat.zero_or, List.cons_append, List.nil_append, List.getD_cons_succ, List.getD_cons_zero]
  refine ⟨hb, ?_, ?_⟩
  · unfold encodeFrame
    simp only [List.length_replicate, h1, h2, if_false, if_true, Bool.false_eq_true,
      List.cons_append, List.nil_append, List.length_cons, List.length_append,
      bePack_length]
    norm_num
  · rw [hb]
    decide

/-- C5 (amended): the encoder selects the 7-bit length form exactly for
N in [0, 124], the 16-bit extended form (second byte 126 plus a 2-byte
big-endian length) for N in [125, 65535], and the 64-bit extended form
(second byte 127 plus an 8-byte big-endian length) for N at least 65536:
src/frame.go tests N < 125, not N <= 125. -/
theorem length_form_selection (fin mask : Bool) (op : Nat) (key P : List Nat) :
    (P.length < 125 →
      (encodeFrame fin mask op key P).getD 1 0 &&& 127 = P.length ∧
      (encodeFrame fin mask op key P).drop 2 =
        (if mask then key else []) ++ (if mask then maskBytes key 0 P else P)) ∧
    (125 ≤ P.length → P.length < 2 ^ 16 →
      (encodeFrame fin mask op key P).getD 1 0 &&& 127 = 126 ∧
      (encodeFrame fin mask op key P).drop 2 =
        bePack 2 P.length ++ (if mask then key else []) ++
          (if mask then maskBytes key 0 P else P)) ∧
    (2 ^ 16 ≤ P.length →
      (encodeFrame fin mask op key P).getD 1 0 &&& 127 = 127 ∧
      (encodeFrame fin mask op key P).drop 2 =
        bePack 8 P.length ++ (if mask then key else []) ++
          (if mask then maskBytes key 0 P else P)) := by
  refine ⟨fun h => ?_, fun h1 h2 => ?_, fun h => ?_⟩
  · cases mask <;>
      simp [encodeFrame, h, bitA P.length (by omega), bitB P.length (by omega)]
  · have hnl : ¬ P.length < 125 := by omega
    have h65536 : P.length < 65536 := by omega
    cases mask <;> simp +decide [encodeFrame, hnl, h2, h65536]
  · have hnl : ¬ P.length < 125 := by omega
    have hn16 : ¬ P.length < 2 ^ 16 := by omega
    have hn65536 : ¬ P.length < 65536 := by omega
    cases mask <;> simp +decide [encodeFrame, hnl, hn16, hn65536]

/-- C5 witness: the 16-bit form at the boundary length 125. -/
theorem length_form_selection_witness :
    (encodeFrame false false 1 [] (List.replicate 125 1)).getD 1 0 &&& 127 = 126 ∧
    (encodeFrame false false 1 [] (List.replicate 125 1)).drop 2 =
      bePack 2 125 ++ List.replicate 125 1 := by
  have h := (length_form_selection false false 1 [] (List.replicate 125 1)).2.1
    (by simp) (by simp)
  simpa using h

/-- C9: a byte stream that ends before the complete frame header (the two
fixed header bytes, the extended length bytes they call for, and the 4
masking-key bytes when the mask bit is set) makes Frame.Decode fail, and
the failure is the propagated end-of-stream error — the kind the spec
names ShortRead. -/
theorem decodeExtLen_short16 (s : List Nat) (h : s.length < 2) :
    decodeExtLen 126 s = .error .eof := by
  rw [decodeExtLen, if_pos rfl, mustRead_short 2 s h]

theorem decodeExtLen_short64 (s : List Nat) (h : s.length < 8) :
    decodeExtLen 127 s = .error .eof := by
  rw [decodeExtLen, if_neg (by omega), if_pos rfl, mustRead_short 8 s h]

theorem decodeExtLen_16_any (t : List Nat) (h : 2 ≤ t.length) :
    decodeExtLen 126 t = .ok (2, t.take 2, t.drop 2) := by
  rw [decodeExtLen, if_pos rfl, mustRead, if_pos h]

theorem decodeExtLen_64_any (t : List Nat) (h : 8 ≤ t.length) :
    decodeExtLen 127 t = .ok (8, t.take 8, t.drop 8) := by
  rw [decodeExtLen, if_neg (by omega), if_pos rfl, mustRead, if_pos h]

theorem decodeAfterHeader_extErr (b0 b1 : Nat) (s : List Nat)
    (h : decodeExtLen (b1 &&& 127) s = .error .eof) :
    decodeAfterHeader b0 b1 s = .error .eof := by
  unfold decodeAfterHeader
  simp only [h]

theorem decodeAfterHeader_maskShort (b0 b1 extLen : Nat) (ext s2 : List Nat) (s : List Nat)
    (hm : 0 < b1 &&& 128)
    (hext : decodeExtLen (b1 &&& 127) s = .ok (extLen, ext, s2))
    (hs2 : s2.length < 4) :
    decodeAfterHeader b0 b1 s = .error .eof := by
  unfold decodeAfterHeader
  simp only [hext, decide_eq_true hm, if_true, mustRead_short 4 s2 hs2]

/-- C9: a byte stream that ends before the complete frame header (the two
fixed header bytes, the extended length bytes they call for, and the 4
masking-key bytes when the mask bit is set) makes Frame.Decode fail, and
the failure is the propagated end-of-stream error — the kind the spec
names ShortRead. -/
theorem decode_short_header_fails (s : List Nat) (h : s.length < headerLenOf (s.getD 1 0)) :
    decodeFrame s = .error .eof := by
  rcases s with _ | ⟨a, _ | ⟨b, t⟩⟩
  · exact decodeFrame_short [] (by simp)
  · exact decodeFrame_short [a] (by simp)
  · have hL : t.length + 2 < headerLenOf b := by simpa using h
    rw [decodeFrame_cons2]
    by_cases h126 : b &&& 127 = 126
    · by_cases hm : 0 < b &&& 128
      · have ht : t.length < 6 := by
          have hh : headerLenOf b = 8 := by simp [headerLenOf, h126, hm]
          omega
        rcases Nat.lt_or_ge t.length 2 with h2 | h2
        · exact decodeAfterHeader_extErr a b t
            (by rw [h126]; exact decodeExtLen_short16 t h2)
        · refine decodeAfterHeader_maskShort a b 2 (t.take 2) (t.drop 2) t hm ?_ ?_
          · rw [h126]; exact decodeExtLen_16_any t h2
          · simp [List.length_drop]; omega
      · have ht : t.length < 2 := by
          have hh : headerLenOf b = 4 := by simp [headerLenOf, h126, hm]
          omega
        exact decodeAfterHeader_extErr a b t
          (by rw [h126]; exact decodeExtLen_short16 t ht)
    · by_cases h127 : b &&& 127 = 127
      · by_cases hm : 0 < b &&& 128
        · have ht : t.length < 12 := by
            have hh : headerLenOf b = 14 := by simp [headerLenOf, h126, h127, hm]
            omega
          rcases Nat.lt_or_ge t.length 8 with h8 | h8
          · exact decodeAfterHeader_extErr a b t
              (by rw [h127]; exact decodeExtLen_short64 t h8)
          · refine decodeAfterHeader_maskShort a b 8 (t.take 8) (t.drop 8) t hm ?_ ?_
            · rw [h127]; exact decodeExtLen_64_any t h8
            · simp [List.length_drop]; omega
        · have ht : t.length < 8 := by
            have hh : headerLenOf b = 10 := by simp [headerLenOf, h126, h127, hm]
            omega
          exact decodeAfterHeader_extErr a b t
            (by rw [h127]; exact decodeExtLen_short64 t ht)
      · by_cases hm : 0 < b &&& 128
        · have ht : t.length < 4 := by
            have hh : headerLenOf b = 6 := by simp [headerLenOf, h126, h127, hm]
            omega
          exact decodeAfterHeader_maskShort a b 0 [] t t hm
            (decodeExtLen_none (b &&& 127) t h126 h127) ht
        · exfalso
          have hh : headerLenOf b = 2 := by simp [headerLenOf, h126, h127, hm]
          omega

/-- C9 witness: a one-byte stream is shorter than any header and decoding
it fails with the end-of-stream kind. -/
theorem decode_short_header_fails_witness :
    ([129] : List Nat).length < headerLenOf (([129] : List Nat).getD 1 0) ∧
    decodeFrame [129] = .error .eof :=
  ⟨by decide, decode_short_header_fails [129] (by decide)⟩

/-! ## sendMessage (src/message.go)

sendMessage streams the message body through a 2048-byte chunk buffer: it
keeps calling Read(buf[offset:]) while no error arrives and the call
returned fewer than len(buf) = 2048 bytes; then it emits one frame whose
payload is buf[:offset] with declared length offset, whose Mask flag is the
connection mask, whose fin flag records whether an error (io.EOF) ended the
chunk, with the callers opcode on the first frame and ContinuationFrame
afterwards, stopping after the fin frame.  The body here is a bytes.Buffer
over the payload P (what Send uses): one Read hands over up to len(p)
available bytes with a nil error, and a read from the exhausted buffer
returns io.EOF (or a nil error when len(p) = 0).  A message with a nil
Reader is replaced by emptyReader, a LimitedReader with count 0 whose every
read returns (0, io.EOF) — on the positive-size reads the loop performs this
coincides with reading an exhausted buffer.
-/

def bufRead (plen : Nat) (src : List Nat) : List Nat × Option StreamErr × List Nat :=
  if src.isEmpty then
    if plen = 0 then ([], none, src) else ([], some .eof, src)
  else (src.take plen, none, src.drop plen)

/-- The accumulation of one chunk (the continue branch of the loop): read
into buf[offset:], extend offset, go again while err is nil and the read
was short of 2048 bytes.  Returns (chunk, fin flag = err was non-nil,
remaining source).  Two reads always settle one chunk of a buffer source;
the fuel only bounds the recursion. -/
def fillChunk : Nat → List Nat → List Nat → List Nat × Bool × List Nat
  | 0, chunk, src => (chunk, true, src)
  | fuel + 1, chunk, src =>
    match bufRead (2048 - chunk.length) src with
    | (data, err, rest) =>
      if err = none ∧ data.length < 2048 then fillChunk fuel (chunk ++ data) rest
      else (chunk ++ data, err.isSome, rest)

structure WireFrame where
  op : Nat
  fin : Bool
  mask : Bool
  payload : List Nat
  deriving DecidableEq

/-- The outer frame-emitting loop of sendMessage. -/
def sendFrames : Nat → Bool → Nat → List Nat → List WireFrame
  | 0, _, _, _ => []
  | fuel + 1, wmask, op, src =>
    match fillChunk 2 [] src with
    | (chunk, fin, rest) =>
      if fin then [⟨op, true, wmask, chunk⟩]
      else ⟨op, false, wmask, chunk⟩ :: sendFrames fuel wmask ContinuationFrame rest

/-- The frames sendMessage hands to sendFrame for a bytes.Buffer body
holding P; the fuel P.length + 1 strictly exceeds the number of frames the
loop can emit, so it never runs out. -/
def sendMessageFrames (wmask : Bool) (op : Nat) (P : List Nat) : List WireFrame :=
  sendFrames (P.length + 1) wmask op P

/-- SendMessage on a Message whose Reader is nil (Go swaps in emptyReader,
whose reads coincide with an exhausted buffer on this loop). -/
def sendMessageNilFrames (wmask : Bool) (op : Nat) : List WireFrame :=
  sendMessageFrames wmask op []

/-- The frames Close() hands to the wire: sendMessage of a Message with
OpCode ConnectionClose and nil Reader (src/unnamed/part_000, Close). -/
def closeSentFrames (wmask : Bool) : List WireFrame :=
  sendMessageNilFrames wmask ConnectionClose

theorem fillChunk_spec (src : List Nat) :
    fillChunk 2 [] src =
      if 2048 ≤ src.length then (src.take 2048, false, src.drop 2048)
      else (src, true, []) := by
  rcases src with _ | ⟨a, t⟩
  · simp [fillChunk, bufRead]
  · by_cases h : 2048 ≤ (a :: t).length
    · have ht : 2047 ≤ t.length := by simp at h; omega
      have hmin : min 2047 t.length = 2047 := by omega
      simp [fillChunk, bufRead, h, hmin, ht]
    · have ht : t.length < 2047 := by simp at h; omega
      have h1n : t.take 2047 = t := List.take_of_length_le (by omega)
      have h2n : t.drop 2047 = [] := List.drop_of_length_le (by omega)
      have h3n : t.length + 1 < 2048 := by omega
      have h4n : ¬ (2047 - t.length = 0) := by omega
      have hnt : ¬ 2047 ≤ t.length := by omega
      simp [fillChunk, bufRead, h, h1n, h2n, h3n, h4n, hnt]

theorem sendFrames_ne_nil (fuel : Nat) (m : Bool) (op : Nat) (src : List Nat)
    (h : src.length < fuel) : sendFrames fuel m op src ≠ [] := by
  cases fuel with
  | zero => omega
  | succ fuel =>
    rw [sendFrames, fillChunk_spec]
    by_cases h2048 : 2048 ≤ src.length <;> simp [h2048]

theorem sendFrames_payloads (fuel : Nat) (m : Bool) (op : Nat) (src : List Nat)
    (h : src.length < fuel) :
    ((sendFrames fuel m op src).map WireFrame.payload).flatten = src := by
  induction fuel generalizing op src with
  | zero => omega
  | succ fuel ih =>
    rw [sendFrames, fillChunk_spec]
    by_cases h2048 : 2048 ≤ src.length
    · have hlen : (src.drop 2048).length < fuel := by
        simp [List.length_drop]; omega
      simp [h2048, ih ContinuationFrame (src.drop 2048) hlen]
    · simp [h2048]

theorem sendFrames_ops (fuel : Nat) (m : Bool) (op : Nat) (src : List Nat)
    (h : src.length < fuel) :
    (sendFrames fuel m op src).map WireFrame.op =
      op :: List.replicate ((sendFrames fuel m op src).length - 1) ContinuationFrame := by
  induction fuel generalizing op src with
  | zero => omega
  | succ fuel ih =>
    rw [sendFrames, fillChunk_spec]
    by_cases h2048 : 2048 ≤ src.length
    · have hlen : (src.drop 2048).length < fuel := by
        simp [List.length_drop]; omega
      have hne := sendFrames_ne_nil fuel m ContinuationFrame (src.drop 2048) hlen
      have hrec := ih ContinuationFrame (src.drop 2048) hlen
      have hpos : 0 < (sendFrames fuel m ContinuationFrame (src.drop 2048)).length :=
        List.length_pos.mpr hne
      obtain ⟨j, hj⟩ :
          ∃ j, (sendFrames fuel m ContinuationFrame (src.drop 2048)).length = j + 1 :=
        ⟨(sendFrames fuel m ContinuationFrame (src.drop 2048)).length - 1, by omega⟩
      simp [h2048, hrec, hj, List.replicate_succ]
    · simp [h2048]

theorem sendFrames_fins (fuel : Nat) (m : Bool) (op : Nat) (src : List Nat)
    (h : src.length < fuel) :
    (sendFrames fuel m op src).map WireFrame.fin =
      List.replicate ((sendFrames fuel m op src).length - 1) false ++ [true] := by
  induction fuel generalizing op src with
  | zero => omega
  | succ fuel ih =>
    rw [sendFrames, fillChunk_spec]
    by_cases h2048 : 2048 ≤ src.length
    · have hlen : (src.drop 2048).length < fuel := by
        simp [List.length_drop]; omega
      have hne := sendFrames_ne_nil fuel m ContinuationFrame (src.drop 2048) hlen
      have hrec := ih ContinuationFrame (src.drop 2048) hlen
      have hpos : 0 < (sendFrames fuel m ContinuationFrame (src.drop 2048)).length :=
        List.length_pos.mpr hne
      obtain ⟨j, hj⟩ :
          ∃ j, (sendFrames fuel m ContinuationFrame (src.drop 2048)).length = j + 1 :=
        ⟨(sendFrames fuel m ContinuationFrame (src.drop 2048)).length - 1, by omega⟩
      simp [h2048, hrec, hj, List.replicate_succ]
    · simp [h2048]

/-- C2: the frames sendMessage (chunk size 2048) emits for a payload P
consist of one first frame with the callers opcode followed only by
ContinuationFrame frames; exactly one frame — the last — has fin = true;
the concatenation of the frame payloads is P; and a payload whose source
reports EOF before the first 2048-byte chunk fills (for a buffer source,
P.length < 2048) yields a single fin = true frame. -/
theorem sendMessage_fragmentation (m : Bool) (op : Nat) (P : List Nat) :
    sendMessageFrames m op P ≠ [] ∧
    (sendMessageFrames m op P).map WireFrame.op =
      op :: List.replicate ((sendMessageFrames m op P).length - 1) ContinuationFrame ∧
    (sendMessageFrames m op P).map WireFrame.fin =
      List.replicate ((sendMessageFrames m op P).length - 1) false ++ [true] ∧
    ((sendMessageFrames m op P).map WireFrame.payload).flatten = P ∧
    (P.length < 2048 → sendMessageFrames m op P = [⟨op, true, m, P⟩]) := by
  refine ⟨sendFrames_ne_nil _ m op P (by omega),
    sendFrames_ops _ m op P (by omega),
    sendFrames_fins _ m op P (by omega),
    sendFrames_payloads _ m op P (by omega),
    fun h => ?_⟩
  have hn : ¬ 2048 ≤ P.length := by omega
  rw [sendMessageFrames, sendFrames, fillChunk_spec, if_neg hn]
  simp

/-- C2 witness: a two-byte payload goes out as a single fin frame. -/
theorem sendMessage_fragmentation_witness :
    sendMessageFrames false TextFrame [104, 105] = [⟨TextFrame, true, false, [104, 105]⟩] :=
  (sendMessage_fragmentation false TextFrame [104, 105]).2.2.2.2 (by decide)

/-- C10: SendMessage on a Message whose body reader is nil sends exactly
one frame: fin = true, the messages opcode, empty payload of declared
length 0 (its header length bits are 0, the 7-bit form); and the frame
Close() emits is exactly this with opcode ConnectionClose. -/
theorem sendMessage_nil_reader_single_empty_frame (m : Bool) (op : Nat) (key : List Nat) :
    sendMessageNilFrames m op = [⟨op, true, m, []⟩] ∧
    closeSentFrames m = [⟨ConnectionClose, true, m, []⟩] ∧
    encodeFrame true m op key [] =
      [(128 ||| op), if m then 128 else 0] ++ (if m then key else []) := by
  refine ⟨?_, ?_, ?_⟩
  · rw [sendMessageNilFrames, sendMessageFrames, sendFrames, fillChunk_spec]
    simp
  · rw [closeSentFrames, sendMessageNilFrames, sendMessageFrames, sendFrames, fillChunk_spec]
    simp
  · cases m <;> simp [encodeFrame, maskBytes]

/-! ## Close and the status field (src/unnamed/part_000, webSocket.Close)

Close runs: err := sendMessage(Message with OpCode ConnectionClose, nil
Reader) — whose sendFrame refuses with ErrClosedStatus when status > OPEN,
and otherwise fails exactly when the underlying write fails; then
unconditionally status = CLOSING; if err != nil return err; then for each
of writer.Close and reader.Close it runs the guard
closeErr != nil && errors.Is(err, net.ErrClosed) — note: on the variable
err, which is necessarily nil on this path, so the guard can never hold
and no stream-close error is ever returned; then status = CLOSED and
return nil.  closeGo returns (returned error, status after the call),
taking the send outcome and the two stream-close outcomes as parameters.
-/

inductive GoErr where
  | errClosedStatus
  | netErrClosed
  | generic
  deriving DecidableEq

/-- errors.Is(e, net.ErrClosed) on our error model. -/
def isNetErrClosed : Option GoErr → Bool
  | some GoErr.netErrClosed => true
  | _ => false

def closeGo (st : Nat) (writeErr wErr rErr : Option GoErr) : Option GoErr × Nat :=
  let err : Option GoErr := if OPEN < st then some .errClosedStatus else writeErr
  match err with
  | some e => (some e, CLOSING)
  | none =>
    if wErr.isSome && isNetErrClosed none then (wErr, CLOSING)
    else if rErr.isSome && isNetErrClosed none then (rErr, CLOSING)
    else (none, CLOSED)

/-- C4: evaluation of the status updates of Close at the failing input.  A
first Close on an open connection (send and both stream closes succeed)
moves status to CLOSED; a second Close then moves status back to CLOSING,
because Close assigns status = CLOSING unconditionally before checking the
ErrClosedStatus failure of its Close-frame send — the transition
CLOSED -> CLOSING goes backward. -/
theorem close_status_regression :
    (closeGo OPEN none none none).2 = CLOSED ∧
    (closeGo (closeGo OPEN none none none).2 none none none).2 = CLOSING ∧
    CLOSING < CLOSED := by
  decide

/-- C6: evaluation of Close at the failing input.  On an open connection
whose Close-frame send succeeds but whose writer.Close and reader.Close
both fail with a generic error (the streams were not already closed),
Close returns no error at all — the guard tests errors.Is on the send
error, which is nil there — even though the claim requires the stream
close error to be returned exactly then. -/
theorem close_swallows_close_errors :
    closeGo OPEN none (some GoErr.generic) (some GoErr.generic) = (none, CLOSED) ∧
    (some GoErr.generic ≠ (none : Option GoErr)) ∧
    isNetErrClosed (some GoErr.generic) = false := by
  decide

/-! ## ReadMessage control dispatch (src/message.go, webSocket.ReadMessage)

ReadMessage pulls the next message (readMessage, abstracted here as popping
the next reassembled message, each an opcode plus its concatenated
payload, from the incoming stream) and inspects its opcode.  Ping: it calls
responsePong, which relabels the very message object OpCode = Pong and
SendMessages it — draining the ping payload from the wire into a Pong
frame written to the connection writer.  ConnectionClose: it calls Close,
which writes a ConnectionClose frame.  In every branch the enclosing for
loop then executes the unconditional `return message, nil`, so exactly one
message is consumed per call and the very message object — for a Ping, now
labelled Pong with its payload consumed — is handed to the caller.
ReadMessageGo returns (message handed to the caller, messages still
unread, control messages written to the writer), for an open connection
whose writes and stream closes succeed. -/

structure MMsg where
  op : Nat
  payload : List Nat
  deriving DecidableEq

def ReadMessageGo (incoming : List MMsg) : Except StreamErr (MMsg × List MMsg × List MMsg) :=
  match incoming with
  | [] => .error .eof
  | msg :: rest =>
    if msg.op = Ping then .ok (⟨Pong, []⟩, rest, [⟨Pong, msg.payload⟩])
    else if msg.op = ConnectionClose then .ok (msg, rest, [⟨ConnectionClose, []⟩])
    else .ok (msg, rest, [])

/-- C3 counterexample: a Ping with payload [1, 2] followed by a Text
message with payload [5].  ReadMessage does write a Pong carrying [1, 2]
to the writer, but the message it returns is the Ping message itself
(opcode rewritten to Pong, payload drained), not the next (Text) message,
which stays unread. -/
theorem readMessage_ping_returns_ping :
    ReadMessageGo [⟨Ping, [1, 2]⟩, ⟨TextFrame, [5]⟩] =
      .ok (⟨Pong, []⟩, [⟨TextFrame, [5]⟩], [⟨Pong, [1, 2]⟩]) ∧
    (⟨Pong, ([] : List Nat)⟩ : MMsg) ≠ ⟨TextFrame, [5]⟩ :=
  ⟨rfl, by decide⟩

/-- C3 (amended): when ReadMessage encounters a message whose first frame
opcode is Ping, it drains the Ping payload, writes a Pong frame carrying
that same payload to the connection writer, and then returns that same
message object — its opcode now Pong and its payload consumed — to the
caller; the next message is left unread. -/
theorem readMessage_ping_pong_echo (p : List Nat) (rest : List MMsg) :
    ReadMessageGo (⟨Ping, p⟩ :: rest) = .ok (⟨Pong, []⟩, rest, [⟨Pong, p⟩]) := by
  simp [ReadMessageGo]

/-- C7: the masking filter is an involution: for a 4-byte key, masking a
byte sequence (cumulative index starting at 0) under any chunking of the
reads and then masking the result again (again from index 0, under any
re-chunking) gives back the original sequence. -/
theorem mask_double_identity (key : List Nat) (hkey : key.length = 4)
    (cs ds : List (List Nat)) (h : ds.flatten = (maskChunks key 0 cs).flatten) :
    (maskChunks key 0 ds).flatten = cs.flatten := by
  rw [maskChunks_join, h, maskChunks_join, maskBytes_maskBytes]

/-- C7 witness: key [1, 2, 3, 4], chunks [[10, 20], [30]] masked to
[11, 22, 29], re-chunked as one read and filtered again. -/
theorem mask_double_identity_witness :
    ([[11, 22, 29]] : List (List Nat)).flatten =
      (maskChunks [1, 2, 3, 4] 0 [[10, 20], [30]]).flatten ∧
    (maskChunks [1, 2, 3, 4] 0 [[11, 22, 29]]).flatten =
      ([[10, 20], [30]] : List (List Nat)).flatten :=
  ⟨by decide, mask_double_identity [1, 2, 3, 4] (by decide) [[10, 20], [30]]
    [[11, 22, 29]] (by decide)⟩

/-! ## SHA-1 and base64 (src/common.go, getSecAcceptKey)

getSecAcceptKey writes the key and then the magic GUID into a crypto/sha1
hash and returns the standard base64 encoding of the digest.  The SHA-1
computation below follows FIPS 180 as crypto/sha1 implements it: pad to a
multiple of 64 bytes (0x80, zeros, 8-byte big-endian bit length), then per
64-byte block expand 16 big-endian words to 80 and run the 80 rounds over
the five 32-bit state words.  32-bit words are Nat reduced mod 2^32 after
every operation that can overflow.
-/

def rotl32 (s x : Nat) : Nat := ((x <<< s) ||| (x >>> (32 - s))) % 2 ^ 32

def sha1F (t b c d : Nat) : Nat :=
  if t < 20 then (b &&& c) ||| ((b ^^^ 0xFFFFFFFF) &&& d)
  else if t < 40 then b ^^^ c ^^^ d
  else if t < 60 then (b &&& c) ||| (b &&& d) ||| (c &&& d)
  else b ^^^ c ^^^ d

def sha1K (t : Nat) : Nat :=
  if t < 20 then 0x5A827999
  else if t < 40 then 0x6ED9EBA1
  else if t < 60 then 0x8F1BBCDC
  else 0xCA62C1D6

structure SHA1State where
  a : Nat
  b : Nat
  c : Nat
  d : Nat
  e : Nat
  deriving DecidableEq

def sha1Init : SHA1State := ⟨0x67452301, 0xEFCDAB89, 0x98BADCFE, 0x10325476, 0xC3D2E1F0⟩

/-- 64 block bytes to 16 big-endian 32-bit words. -/
def toWords : List Nat → List Nat
  | a :: b :: c :: d :: rest => (((a * 256 + b) * 256 + c) * 256 + d) :: toWords rest
  | _ => []

/-- Message-schedule expansion; the accumulator holds the words produced so
far, most recent first, so w[t-3], w[t-8], w[t-14], w[t-16] are at
positions 2, 7, 13, 15.  Runs 64 times from the reversed 16 seed words. -/
def extendWords : Nat → List Nat → List Nat
  | 0, acc => acc
  | n + 1, acc =>
    extendWords n
      (rotl32 1 (acc.getD 2 0 ^^^ acc.getD 7 0 ^^^ acc.getD 13 0 ^^^ acc.getD 15 0) :: acc)

def sha1Rounds : Nat → List Nat → SHA1State → SHA1State
  | _, [], st => st
  | t, w :: ws, ⟨a, b, c, d, e⟩ =>
    sha1Rounds (t + 1) ws
      ⟨(rotl32 5 a + sha1F t b c d + e + sha1K t + w) % 2 ^ 32, a, rotl32 30 b, c, d⟩

def sha1Compress (h : SHA1State) (block : List Nat) : SHA1State :=
  let ws := (extendWords 64 (toWords block).reverse).reverse
  let st := sha1Rounds 0 ws h
  ⟨(h.a + st.a) % 2 ^ 32, (h.b + st.b) % 2 ^ 32, (h.c + st.c) % 2 ^ 32,
    (h.d + st.d) % 2 ^ 32, (h.e + st.e) % 2 ^ 32⟩

def sha1Pad (msg : List Nat) : List Nat :=
  let l := msg.length
  msg ++ 128 :: List.replicate ((119 - l % 64) % 64) 0 ++ bePack 8 (8 * l)

def sha1Blocks : Nat → SHA1State → List Nat → SHA1State
  | 0, h, _ => h
  | fuel + 1, h, msg =>
    if msg.isEmpty then h
    else sha1Blocks fuel (sha1Compress h (msg.take 64)) (msg.drop 64)

def sha1Bytes (msg : List Nat) : List Nat :=
  let padded := sha1Pad msg
  let st := sha1Blocks padded.length sha1Init padded
  bePack 4 st.a ++ bePack 4 st.b ++ bePack 4 st.c ++ bePack 4 st.d ++ bePack 4 st.e

def b64Alphabet : String :=
  "ABCDEFGHIJKLMNOPQRSTUVWXYZabcdefghijklmnopqrstuvwxyz0123456789+/"

def b64Char (n : Nat) : Char := b64Alphabet.toList.getD n 'A'

def base64Chars : List Nat → List Char
  | [] => []
  | [a] => [b64Char (a / 4), b64Char (a % 4 * 16), '=', '=']
  | [a, b] => [b64Char (a / 4), b64Char (a % 4 * 16 + b / 16), b64Char (b % 16 * 4), '=']
  | a :: b :: c :: rest =>
    b64Char (a / 4) :: b64Char (a % 4 * 16 + b / 16) :: b64Char (b % 16 * 4 + c / 64) ::
      b64Char (c % 64) :: base64Chars rest

def base64String (bs : List Nat) : String := String.mk (base64Chars bs)

/-- UTF-8 bytes of a character (Go []byte(string) conversion). -/
def utf8EncodeChar (c : Char) : List Nat :=
  let n := c.toNat
  if n < 128 then [n]
  else if n < 2048 then [192 + n / 64, 128 + n % 64]
  else if n < 65536 then [224 + n / 4096, 128 + n / 64 % 64, 128 + n % 64]
  else [240 + n / 262144, 128 + n / 4096 % 64, 128 + n / 64 % 64, 128 + n % 64]

def strBytes (s : String) : List Nat := (s.toList.map utf8EncodeChar).flatten

def magicGUID : String := "258EAFA5-E914-47DA-95CA-C5AB0DC85B11"

/-- getSecAcceptKey (src/common.go): the SHA-1 writes of the key and the
GUID accumulate — sha1.Write never fails nor short-writes, so the two Go
error branches are unreachable — and the digest is base64-encoded. -/
def getSecAcceptKey (secWebsocketKey : String) : String :=
  base64String (sha1Bytes (strBytes secWebsocketKey ++ strBytes magicGUID))

def sampleKey : String := "dGhlIHNhbXBsZSBub25jZQ=="

def sampleAccept : String := "s3pPLMBiTxaQ9kYGzzhZRbK+xOo="

/-- C8: the accept key is base64(SHA1(key ++ magic GUID)) for every key —
the two hash writes accumulate into one digest over the concatenation —
and at the RFC 6455 sample key dGhlIHNhbXBsZSBub25jZQ== the function
returns s3pPLMBiTxaQ9kYGzzhZRbK+xOo=. -/
theorem accept_key_law :
    (∀ key : String,
      getSecAcceptKey key = base64String (sha1Bytes (strBytes key ++ strBytes magicGUID))) ∧
    getSecAcceptKey sampleKey = sampleAccept :=
  ⟨fun _ => rfl, by decide⟩

end WS
